import Mathlib

/-!
Shallow embedding of the eth-client chain-view transition validator
(`contracts/eth-client/src/logic.rs`) of the rust-eth-client repository.

Byte strings are modelled as `List Nat` (each entry a byte value `< 256`;
only equality and big-endian decoding of 8-byte fields are ever used).
The molecule codec (`ChainReader`, `HeaderInfoReader`, `CellDataView`,
`WitnessReader`, `DagsMerkleRootsReader`, `DoubleNodeWithMerkleProofReader`)
and the RLP block-header decoder (`eth_spv_lib`) are external collaborators
of the core (spec sections 1 and 2); they are modelled as abstract parsing
functions collected in an `Ext` record, with `none` standing for a failed
schema verification / failed decode.

Rust `assert_eq!` failures, `unwrap`/`expect` on `None`, arithmetic
underflow on `usize` index computations and unchecked out-of-range reads
all abort the script rather than returning an `Error` value; they are
modelled by the distinguished outcome `Err.Abort`, which is different from
every member of the contract's `Error` enum.
-/

namespace EthClient

/-- A raw byte string (each entry is a byte value). -/
abbrev Bytes := List Nat

/-- Outcomes of the contract.  The first six constructors model the
variants of the contract's `Error` enum that `logic.rs` uses; `SysError`
models a host syscall error propagated by the `?` operator; `Abort`
models a Rust panic (failed `assert_eq!`, `unwrap`/`expect` on `None`,
`usize` underflow, or an unchecked out-of-range read). -/
inductive Err where
  | TxInvalid
  | InvalidDataChange
  | InvalidCellData
  | InvalidWitness
  | DagsMerkleRootsDataInvalid
  | InvalidMerkleProofData
  | SysError
  | Abort
deriving DecidableEq, Repr

/-- View of a molecule `HeaderInfo` (schema in spec section 6):
the raw header bytes, the 32-byte hash field, and the 8-byte
`total_difficulty` field (big-endian `uint64`). -/
structure HeaderInfoView where
  header : Bytes
  hash : Bytes
  total_difficulty : Bytes
deriving DecidableEq, Repr

/-- A decoded block header (`eth_spv_lib::eth_types::BlockHeader`),
restricted to the fields `logic.rs` reads: `parent_hash`, `number`,
`difficulty` and the computed `hash` (always filled in by the decoder). -/
structure BlockHeader where
  parent_hash : Bytes
  number : Nat
  difficulty : Nat
  hash : Bytes
deriving DecidableEq, Repr

/-- View of a molecule `Chain`: the `main` and `uncle` vectors, each a
sequence of raw (still-encoded) `HeaderInfo` byte strings, exactly as
`ChainReader::main()` / `ChainReader::uncle()` expose them. -/
structure ChainView where
  main : List Bytes
  uncle : List Bytes
deriving DecidableEq, Repr

/-- View of a `CellDataView`: the owner-lock bytes and the still-encoded
`Chain` bytes (fields `user_lockscript` and `headers` in `logic.rs`). -/
structure CellDataView where
  user_lockscript : Bytes
  headers : Bytes
deriving DecidableEq, Repr

/-- View of the witness (`WitnessReader`): `cell_dep_index_list`, the raw
new header bytes, and the raw merkle-proof items. -/
structure WitnessView where
  cell_dep_index_list : Bytes
  header : Bytes
  merkle_proof : List Bytes
deriving DecidableEq, Repr

/-- View of a molecule `DoubleNodeWithMerkleProof`. -/
structure DoubleNodeView where
  dag_nodes : List Bytes
  proof : List Bytes
deriving DecidableEq, Repr

/-- The external collaborators of the core (spec section 1: the binary
schema codec and the Ethash header decoder/verifier are out of scope and
are parameters of the embedding).  Each parser returns `none` exactly when
the corresponding `Reader::verify` (or `rlp::decode`) fails. -/
structure Ext where
  parseCellData : Bytes → Option CellDataView
  parseChain : Bytes → Option ChainView
  parseHeaderInfo : Bytes → Option HeaderInfoView
  decodeHeader : Bytes → Option BlockHeader
  parseWitness : Bytes → Option WitnessView
  parseDoubleNode : Bytes → Option DoubleNodeView
  parseDagsRoots : Bytes → Option (List Bytes)
  verifyHeader : BlockHeader → Bytes → List DoubleNodeView → Bool

/-- The host environment of one invocation: the cell-data blobs of the
input and output groups, the `input_type` field of the witness at group
input 0 (`none` = syscall failure, `some none` = witness present but
`input_type` absent), and the dep-cell loader. -/
structure Host where
  inputData : List Bytes
  outputData : List Bytes
  witnessInputType : Option (Option Bytes)
  loadCellDep : Nat → Option Bytes

/-- `MAIN_HEADER_CACHE_LIMIT` (logic.rs line 13). -/
def MAIN_HEADER_CACHE_LIMIT : Nat := 500

/-- `UNCLE_HEADER_CACHE_LIMIT` (logic.rs line 14). -/
def UNCLE_HEADER_CACHE_LIMIT : Nat := 500

/-- `to_u64` (logic.rs lines 290-294): `u64::from_be_bytes` of the 8-byte
`Uint64` field, i.e. big-endian interpretation of the byte string. -/
def to_u64 (data : Bytes) : Nat :=
  data.foldl (fun acc b => acc * 256 + b) 0

/-- Big-endian 8-byte encoding of a `u64` value.  Modelled from the spec:
the `impl From<u64> for Uint64` used at logic.rs line 116 lives in the
generated `types` module (not under `src/`); spec sections 3 and 6 fix the
`Uint64` wrapper as an unsigned 64-bit big-endian integer, which also
makes it the inverse of `to_u64`. -/
def u64ToBytes (n : Nat) : Bytes :=
  [n / 256 ^ 7 % 256, n / 256 ^ 6 % 256, n / 256 ^ 5 % 256, n / 256 ^ 4 % 256,
   n / 256 ^ 3 % 256, n / 256 ^ 2 % 256, n / 256 % 256, n % 256]

/-- Wrapping `u64` decrement, modelling `header.number - 1` at
logic.rs line 134 for a release build (the reachable call sites
always have a positive argument). -/
def u64dec (n : Nat) : Nat := if n = 0 then 2 ^ 64 - 1 else n - 1

/-- Lift a unit-valued check to the `BlockHeader`-valued result of
`verify_input_output_data` (the `Ok(header)` at logic.rs line 182). -/
def liftOk (r : Except Err Unit) (header : BlockHeader) : Except Err BlockHeader :=
  match r with
  | .ok () => .ok header
  | .error e => .error e

/-- `verify_original_chain_data` (logic.rs lines 211-236): the bounded
ring-buffer shape check used for the main chain on the straight-extension
branch and for the uncle chain on the uncle-append branch.  The
`assert_eq!` of the two collected segments aborts on mismatch. -/
def verify_original_chain_data (inp out : List Bytes) (limit : Nat) : Except Err Unit :=
  if inp.length = out.length ∧ out.length = limit then
    -- input entries 1 .. len-1 must equal output entries 0 .. len-2
    if inp.drop 1 = out.dropLast then .ok () else .error .Abort
  else if inp.length < out.length then
    -- all input entries must equal output entries 0 .. out.len-2
    if inp = out.dropLast then .ok () else .error .Abort
  else .error .InvalidCellData

/-- The inner scan of `traverse_uncle_chain` (logic.rs lines 186-207):
walk the uncle pool from index `idx` downwards; the entry at index 0 is
never examined (`if index == 0 { return Err(InvalidCellData) }` runs
before the read).  On a hash hit, decode the entry's raw header and
return its `parent_hash` (the `rlp::decode(..).unwrap()` aborts if the
stored bytes do not decode). -/
def traverseUncleAux (ext : Ext) (uncle : List Bytes) (currentHash : Bytes) :
    Nat → Except Err Bytes
  | 0 => .error .InvalidCellData
  | idx + 1 =>
    match ext.parseHeaderInfo (uncle.getD (idx + 1) []) with
    | none => .error .InvalidCellData
    | some hi =>
      if hi.hash = currentHash then
        match ext.decodeHeader hi.header with
        | none => .error .Abort
        | some h => .ok h.parent_hash
      else traverseUncleAux ext uncle currentHash idx

/-- `traverse_uncle_chain` (logic.rs lines 185-209).  The scan starts at
`uncle.len() - 1`, which underflows (aborts) on an empty pool.  On a hit
the walk state becomes the decoded `parent_hash` and `number - 1`
(the reachable call sites guarantee `number ≥ 1`, because the reorg loop
returns before the call when `number == 0`). -/
def traverse_uncle_chain (ext : Ext) (uncle : List Bytes) (currentHash : Bytes)
    (number : Nat) : Except Err (Bytes × Nat) :=
  if uncle.length = 0 then .error .Abort
  else
    match traverseUncleAux ext uncle currentHash (uncle.length - 1) with
    | .error e => .error e
    | .ok parentHash => .ok (parentHash, number - 1)

/-- The reorg ancestor-search loop (logic.rs lines 136-169).  `mtn` is
`main_tail_input.number` (the decoded input main tail's height).  Each
iteration either terminates or decrements the walk height by one, so the
loop is structural recursion on `number`.  The guard at line 145 is
`offset > len` (not `≥`), so `offset = len` slips through and the index
`len - 1 - offset` underflows, aborting the script. -/
def reorgLoop (ext : Ext) (mainIn uncleIn mainOut : List Bytes) (mtn : Nat) :
    Nat → Bytes → Except Err Unit
  | 0, _ => .error .InvalidCellData
  | m + 1, currentHash =>
    if mtn ≤ m + 1 then
      -- the parent header is above the cached main range: step via uncles
      match traverse_uncle_chain ext uncleIn currentHash (m + 1) with
      | .error e => .error e
      | .ok (newHash, _) => reorgLoop ext mainIn uncleIn mainOut mtn m newHash
    else
      let offset := mtn - (m + 1) - 1
      if mainIn.length < offset then .error .InvalidCellData
      else if mainIn.length = offset then .error .Abort
      else
        let idx := mainIn.length - 1 - offset
        match ext.parseHeaderInfo (mainIn.getD idx []) with
        | none => .error .InvalidCellData
        | some hi =>
          if hi.hash = currentHash then
            -- fork point found on the main chain: the surviving prefix
            -- IN_MAIN[1 .. idx-1] must equal OUT_MAIN[0 .. out.len-2]
            if mainOut.length = 0 then .error .Abort
            else if (mainIn.drop 1).take (idx - 1) = mainOut.dropLast then .ok ()
            else .error .Abort
          else
            match traverse_uncle_chain ext uncleIn currentHash (m + 1) with
            | .error e => .error e
            | .ok (newHash, _) => reorgLoop ext mainIn uncleIn mainOut mtn m newHash

/-- The straight-extension branch (logic.rs lines 113-127): total
difficulty law (`checked_add().unwrap()` aborts on `u64` overflow, the
`assert_eq!` aborts on mismatch), the `MAIN_HEADER_CACHE_LIMIT` bound,
the ring-shape check, and the uncle-equality `assert_eq!`. -/
def straightCheck (tIn tOut : HeaderInfoView) (header : BlockHeader)
    (mainIn mainOut uncleIn uncleOut : List Bytes) : Except Err Unit :=
  let prev := to_u64 tIn.total_difficulty
  let left := to_u64 tOut.total_difficulty
  -- `header.difficulty.0.as_u64().into()` then `to_u64`: the low 64 bits
  -- of the difficulty, round-tripped through the big-endian Uint64 wrapper
  let right := to_u64 (u64ToBytes (header.difficulty % 2 ^ 64))
  if 2 ^ 64 ≤ right + prev then .error .Abort
  else if left ≠ right + prev then .error .Abort
  else if MAIN_HEADER_CACHE_LIMIT < mainOut.length then .error .InvalidCellData
  else
    match verify_original_chain_data mainIn mainOut MAIN_HEADER_CACHE_LIMIT with
    | .error e => .error e
    | .ok () => if uncleIn = uncleOut then .ok () else .error .Abort

/-- The reorg branch (logic.rs lines 129-172): the total-difficulty
comparison gates the ancestor search; a drop in cumulative work is
`InvalidCellData`. -/
def reorgCheck (ext : Ext) (tIn tOut : HeaderInfoView) (header : BlockHeader)
    (tInDec : BlockHeader) (mainIn uncleIn mainOut : List Bytes) : Except Err Unit :=
  let left := to_u64 tIn.total_difficulty
  let right := to_u64 tOut.total_difficulty
  if left ≤ right then
    reorgLoop ext mainIn uncleIn mainOut tInDec.number (u64dec header.number)
      header.parent_hash
  else .error .InvalidCellData

/-- The uncle-append branch (logic.rs lines 174-180): the uncle chain
follows the ring-shape rule and the main chain must be unchanged
(`assert_eq!` on the raw slices, which for schema-verified vectors is
entrywise byte equality). -/
def uncleAppendCheck (mainIn mainOut uncleIn uncleOut : List Bytes) : Except Err Unit :=
  match verify_original_chain_data uncleIn uncleOut UNCLE_HEADER_CACHE_LIMIT with
  | .error e => .error e
  | .ok () => if mainOut = mainIn then .ok () else .error .Abort

/-- The branch dispatch of `verify_input_output_data` after both main
tails have been read and parsed (logic.rs lines 104-182): classification
on `out_tail.raw == header_raw`, the `assert_eq!` on the output tail's
hash field, the decode of the input tail (`unwrap` aborts on failure),
and the parent-hash test selecting straight extension versus reorg. -/
def branchDispatch (ext : Ext) (header : BlockHeader) (ci co : ChainView)
    (tIn tOut : HeaderInfoView) (header_raw : Bytes) : Except Err BlockHeader :=
  if tOut.header = header_raw then
    if tOut.hash = header.hash then
      match ext.decodeHeader tIn.header with
      | none => .error .Abort
      | some tInDec =>
        if tInDec.hash = header.parent_hash then
          liftOk (straightCheck tIn tOut header ci.main co.main ci.uncle co.uncle) header
        else
          liftOk (reorgCheck ext tIn tOut header tInDec ci.main ci.uncle co.main) header
    else .error .Abort
  else
    liftOk (uncleAppendCheck ci.main co.main ci.uncle co.uncle) header

/-- `verify_input_output_data` (logic.rs lines 69-183).  Order of
operations as in the source: decode the witness header (`unwrap` aborts),
verify/parse both chains (`InvalidCellData` on schema failure), read both
main tails (`len() - 1` underflows and aborts on an empty main vector),
parse both tail `HeaderInfo`s, then dispatch on the classification. -/
def verify_input_output_data (ext : Ext) (input output : CellDataView)
    (header_raw : Bytes) : Except Err BlockHeader :=
  match ext.decodeHeader header_raw with
  | none => .error .Abort
  | some header =>
    match ext.parseChain input.headers with
    | none => .error .InvalidCellData
    | some ci =>
      match ext.parseChain output.headers with
      | none => .error .InvalidCellData
      | some co =>
        match ci.main.getLast? with
        | none => .error .Abort
        | some tInRaw =>
          match ext.parseHeaderInfo tInRaw with
          | none => .error .InvalidCellData
          | some tIn =>
            match co.main.getLast? with
            | none => .error .Abort
            | some tOutRaw =>
              match ext.parseHeaderInfo tOutRaw with
              | none => .error .InvalidCellData
              | some tOut =>
                branchDispatch ext header ci co tIn tOut header_raw

/-- `parse_proof` (logic.rs lines 238-259): schema failure is
`InvalidWitness`; the `copy_from_slice` into the 64-byte node buffers and
16-byte proof buffers aborts when an element has the wrong length. -/
def parse_proof (ext : Ext) (proof_raw : Bytes) : Except Err DoubleNodeView :=
  match ext.parseDoubleNode proof_raw with
  | none => .error .InvalidWitness
  | some p =>
    if p.dag_nodes.all (fun n => n.length = 64) then
      if p.proof.all (fun q => q.length = 16) then .ok p
      else .error .Abort
    else .error .Abort

/-- The proof-collection loop of `verify_witness` (logic.rs lines 55-60). -/
def parseProofs (ext : Ext) : List Bytes → Except Err (List DoubleNodeView)
  | [] => .ok []
  | r :: rs =>
    match parse_proof ext r with
    | .error e => .error e
    | .ok p =>
      match parseProofs ext rs with
      | .error e => .error e
      | .ok ps => .ok (p :: ps)

/-- `parse_dep_data` (logic.rs lines 261-277): `cell_dep_index_list` must
have length exactly 1 (`InvalidWitness` otherwise); the dep cell is loaded
at that index; schema failure of the roots blob is
`DagsMerkleRootsDataInvalid`; the epoch index `number / 30000` is then fed
to `get_unchecked` with no bounds check, so an out-of-range index is an
unchecked read that aborts, and the `copy_from_slice` into the 16-byte
buffer aborts when the selected entry is not 16 bytes long. -/
def parse_dep_data (ext : Ext) (loadCellDep : Nat → Option Bytes)
    (witness : WitnessView) (number : Nat) : Except Err Bytes :=
  if witness.cell_dep_index_list.length ≠ 1 then .error .InvalidWitness
  else
    match loadCellDep (witness.cell_dep_index_list.getD 0 0) with
    | none => .error .SysError
    | some dep_data =>
      match ext.parseDagsRoots dep_data with
      | none => .error .DagsMerkleRootsDataInvalid
      | some roots =>
        let idx := number / 30000
        if roots.length ≤ idx then .error .Abort
        else
          let root := roots.getD idx []
          if root.length = 16 then .ok root else .error .Abort

/-- Error value produced when `CellDataView::from_slice` fails inside
`get_data` (logic.rs lines 283-285).  Modelled from the spec: the
`From` conversion of the molecule error lives in the `types` module (not
under `src/`); spec section 4.1 maps any cell-payload structural failure
to `InvalidCellData`. -/
def cellDataFromSliceErr : Err := .InvalidCellData

/-- `get_data` (logic.rs lines 279-288): zero blobs yield `Ok(None)`, one
blob is parsed, more than one blob is `TxInvalid`. -/
def get_data (ext : Ext) (dataList : List Bytes) : Except Err (Option CellDataView) :=
  match dataList with
  | [] => .ok none
  | [d] =>
    match ext.parseCellData d with
    | some v => .ok (some v)
    | none => .error cellDataFromSliceErr
  | _ => .error .TxInvalid

/-- `verify_data` (logic.rs lines 28-37): owner-lock equality. -/
def verify_data (input output : CellDataView) : Except Err Unit :=
  if input.user_lockscript ≠ output.user_lockscript then .error .InvalidDataChange
  else .ok ()

/-- `verify_witness` (logic.rs lines 40-67): load the witness `input_type`
(`InvalidWitness` when absent, `InvalidWitness` on schema failure), check
input/output data against the carried header, assemble the proofs and the
DAG root, and run the Ethash verifier. -/
def verify_witness (ext : Ext) (host : Host) (input output : CellDataView) :
    Except Err Unit :=
  match host.witnessInputType with
  | none => .error .SysError
  | some none => .error .InvalidWitness
  | some (some wbytes) =>
    match ext.parseWitness wbytes with
    | none => .error .InvalidWitness
    | some witness =>
      match verify_input_output_data ext input output witness.header with
      | .error e => .error e
      | .ok header =>
        match parseProofs ext witness.merkle_proof with
        | .error e => .error e
        | .ok proofs =>
          match parse_dep_data ext host.loadCellDep witness header.number with
          | .error e => .error e
          | .ok merkle_root =>
            if ext.verifyHeader header merkle_root proofs then .ok ()
            else .error .InvalidMerkleProofData

/-- `verify` (logic.rs lines 19-26): the `expect("should not happen")`
calls abort when a group is empty (`get_data` returned `Ok(None)`). -/
def verify (ext : Ext) (host : Host) : Except Err Unit :=
  match get_data ext host.inputData with
  | .error e => .error e
  | .ok none => .error .Abort
  | .ok (some input_data) =>
    match get_data ext host.outputData with
    | .error e => .error e
    | .ok none => .error .Abort
    | .ok (some output_data) =>
      match verify_data input_data output_data with
      | .error e => .error e
      | .ok () => verify_witness ext host input_data output_data

end EthClient

namespace EthClient

/-! ## Concrete test fixtures

A small concrete instantiation of the external codecs, used to evaluate
the validator on explicit inputs.  The tables are arbitrary but
internally consistent: parse/decode results are fixed per byte string. -/

/-- An 8-byte big-endian `total_difficulty` field with value `n < 256`. -/
def td8 (n : Nat) : Bytes := [0, 0, 0, 0, 0, 0, 0, n]

/-- Concrete instantiation of the external codecs (lookup tables). -/
def toyExt : Ext where
  parseCellData := fun bs =>
    match bs with
    | [30] => some ⟨[0], [1]⟩
    | _ => none
  parseChain := fun bs =>
    match bs with
    | [1] => some ⟨[[100]], []⟩
    | [2] => some ⟨[[100], [101]], []⟩
    | [3] => some ⟨[[102]], [[110]]⟩
    | [4] => some ⟨[[103]], [[110]]⟩
    | [5] => some ⟨[[120]], [[121]]⟩
    | [6] => some ⟨[[120]], [[121], [122]]⟩
    | [7] => some ⟨[[100], [104]], []⟩
    | [8] => some ⟨[], []⟩
    | _ => none
  parseHeaderInfo := fun bs =>
    match bs with
    | [100] => some ⟨[20], [1], td8 7⟩
    | [101] => some ⟨[10], [2], td8 10⟩
    | [102] => some ⟨[21], [9], td8 6⟩
    | [103] => some ⟨[11], [4], td8 5⟩
    | [104] => some ⟨[10], [2], td8 11⟩
    | [110] => some ⟨[22], [7], td8 1⟩
    | [111] => some ⟨[23], [8], td8 1⟩
    | [120] => some ⟨[24], [2], td8 7⟩
    | [121] => some ⟨[25], [3], td8 1⟩
    | [122] => some ⟨[26], [99], td8 9⟩
    | _ => none
  decodeHeader := fun bs =>
    match bs with
    | [10] => some ⟨[1], 2, 3, [2]⟩
    | [11] => some ⟨[3], 5, 2, [4]⟩
    | [12] => some ⟨[1], 2, 3, [5]⟩
    | [20] => some ⟨[0], 1, 1, [1]⟩
    | [21] => some ⟨[8], 4, 1, [9]⟩
    | [22] => some ⟨[5], 3, 1, [7]⟩
    | [23] => some ⟨[6], 3, 1, [8]⟩
    | [24] => some ⟨[0], 1, 1, [2]⟩
    | [26] => some ⟨[2], 2, 1, [55]⟩
    | _ => none
  parseWitness := fun _ => none
  parseDoubleNode := fun _ => none
  parseDagsRoots := fun bs =>
    match bs with
    | [40] => some []
    | [41] => some [List.replicate 16 0]
    | _ => none
  verifyHeader := fun _ _ _ => false

/-- There is an entry at index `j` of the uncle pool that parses and whose
hash field equals `h` (a "hit" for the scan of `traverse_uncle_chain`). -/
def hitAt (ext : Ext) (uncle : List Bytes) (h : Bytes) (j : Nat) : Prop :=
  ∃ hi, ext.parseHeaderInfo (uncle.getD j []) = some hi ∧ hi.hash = h

/-- Dep-cell loader serving the empty roots blob at index 0. -/
def loadDepEmptyRoots : Nat → Option Bytes :=
  fun i => if i = 0 then some [40] else none

/-- Dep-cell loader serving a one-root blob at index 0. -/
def loadDepOneRoot : Nat → Option Bytes :=
  fun i => if i = 0 then some [41] else none

/-- A host whose input group carries no cell-data blob. -/
def hostNoInput : Host := ⟨[], [[30]], none, fun _ => none⟩

/-- A host with one well-formed input blob and two output blobs. -/
def hostTwoOutputs : Host := ⟨[[30]], [[31], [32]], none, fun _ => none⟩

/-! ## Helper lemmas -/

theorem liftOk_eq_ok {r : Except Err Unit} {header h' : BlockHeader}
    (h : liftOk r header = .ok h') : r = .ok () ∧ h' = header := by
  cases r with
  | ok u => cases u; exact ⟨rfl, by cases h; rfl⟩
  | error e => simp [liftOk] at h

theorem liftOk_error {r : Except Err Unit} {header : BlockHeader} {e : Err}
    (h : r = .error e) : liftOk r header = .error e := by
  subst h; rfl

theorem liftOk_ok {r : Except Err Unit} {header : BlockHeader}
    (h : r = .ok ()) : liftOk r header = .ok header := by
  subst h; rfl

/-- Round trip: reading the big-endian `Uint64` wrapper back with
`to_u64` recovers the value modulo `2^64`. -/
theorem to_u64_u64ToBytes (n : Nat) : to_u64 (u64ToBytes n) = n % 2 ^ 64 := by
  simp only [to_u64, u64ToBytes, List.foldl]
  omega

/-- Under the hypotheses that the header decodes, both chains parse and
both main tails exist and parse, `verify_input_output_data` reduces to
the branch dispatch. -/
theorem viodEq (ext : Ext) (input output : CellDataView) (hraw : Bytes)
    {header : BlockHeader} {ci co : ChainView} {tInRaw tOutRaw : Bytes}
    {tIn tOut : HeaderInfoView}
    (hdec : ext.decodeHeader hraw = some header)
    (hci : ext.parseChain input.headers = some ci)
    (hco : ext.parseChain output.headers = some co)
    (htiL : ci.main.getLast? = some tInRaw)
    (htiP : ext.parseHeaderInfo tInRaw = some tIn)
    (htoL : co.main.getLast? = some tOutRaw)
    (htoP : ext.parseHeaderInfo tOutRaw = some tOut) :
    verify_input_output_data ext input output hraw =
      branchDispatch ext header ci co tIn tOut hraw := by
  simp only [verify_input_output_data, hdec, hci, hco, htiL, htiP, htoL, htoP]

/-- Shape analysis of an accepted `verify_original_chain_data` run at
limit 500: the output is the input with the first `k ∈ {0,1}` entries
dropped and one new tail appended, with `k` determined by the lengths. -/
theorem vocd_shape {inp out : List Bytes}
    (h : verify_original_chain_data inp out 500 = .ok ()) :
    ∃ k e, (k = 0 ∨ k = 1) ∧ out = inp.drop k ++ [e] ∧
      (k = 1 ↔ (inp.length = 500 ∧ out.length = 500)) ∧
      (k = 0 ↔ inp.length < out.length) ∧
      (k = 0 → out.length = inp.length + 1) := by
  unfold verify_original_chain_data at h
  split at h
  · rename_i hlen
    split at h
    · rename_i heq
      have hne : out ≠ [] := by
        intro hnil; rw [hnil] at hlen; simp at hlen
      refine ⟨1, out.getLast hne, Or.inr rfl, ?_, ?_, ?_, ?_⟩
      · rw [heq]; exact (List.dropLast_append_getLast hne).symm
      · simp only [true_iff]; exact ⟨hlen.1.trans hlen.2, hlen.2⟩
      · constructor
        · intro h01; omega
        · intro hlt; omega
      · intro h01; omega
    · exact absurd h (by simp)
  · split at h
    · rename_i hnl hlt
      split at h
      · rename_i heq
        have hne : out ≠ [] := by
          intro hnil; rw [hnil] at hlt; simp at hlt
        refine ⟨0, out.getLast hne, Or.inl rfl, ?_, ?_, ?_, ?_⟩
        · rw [List.drop_zero, heq]; exact (List.dropLast_append_getLast hne).symm
        · have hlen : out.length = inp.length + 1 := by
            have := congrArg List.length heq
            rw [List.length_dropLast] at this
            omega
          constructor
          · intro h01; omega
          · intro ⟨h1, h2⟩; omega
        · simp only [true_iff]; exact hlt
        · intro _
          have := congrArg List.length heq
          rw [List.length_dropLast] at this
          omega
      · exact absurd h (by simp)
    · exact absurd h (by simp)

end EthClient

namespace EthClient

/-- Characterization of an accepted straight-extension check: no `u64`
overflow in the difficulty sum, the total-difficulty equality, the main
bound, the ring-shape check and uncle equality. -/
theorem straightCheck_ok_iff (tIn tOut : HeaderInfoView) (header : BlockHeader)
    (mainIn mainOut uncleIn uncleOut : List Bytes) :
    straightCheck tIn tOut header mainIn mainOut uncleIn uncleOut = .ok () ↔
      (to_u64 (u64ToBytes (header.difficulty % 2 ^ 64)) + to_u64 tIn.total_difficulty
          < 2 ^ 64 ∧
        to_u64 tOut.total_difficulty =
          to_u64 (u64ToBytes (header.difficulty % 2 ^ 64)) + to_u64 tIn.total_difficulty ∧
        mainOut.length ≤ MAIN_HEADER_CACHE_LIMIT ∧
        verify_original_chain_data mainIn mainOut MAIN_HEADER_CACHE_LIMIT = .ok () ∧
        uncleIn = uncleOut) := by
  simp only [straightCheck]
  by_cases h1 : 2 ^ 64 ≤ to_u64 (u64ToBytes (header.difficulty % 2 ^ 64)) +
      to_u64 tIn.total_difficulty
  · rw [if_pos h1]
    exact iff_of_false (by simp) (by rintro ⟨hlt, -⟩; omega)
  · rw [if_neg h1]
    by_cases h2 : to_u64 tOut.total_difficulty =
        to_u64 (u64ToBytes (header.difficulty % 2 ^ 64)) + to_u64 tIn.total_difficulty
    · rw [if_neg (by simpa using h2)]
      by_cases h3 : MAIN_HEADER_CACHE_LIMIT < mainOut.length
      · rw [if_pos h3]
        exact iff_of_false (by simp) (by rintro ⟨-, -, hle, -⟩; omega)
      · rw [if_neg h3]
        cases hvocd : verify_original_chain_data mainIn mainOut MAIN_HEADER_CACHE_LIMIT with
        | error e =>
          exact iff_of_false (by simp)
            (by rintro ⟨-, -, -, hok, -⟩; simp at hok)
        | ok u =>
          cases u
          by_cases hu : uncleIn = uncleOut
          · rw [if_pos hu]
            exact iff_of_true rfl ⟨by omega, h2, by omega, rfl, hu⟩
          · rw [if_neg hu]
            exact iff_of_false (by simp) (by rintro ⟨-, -, -, -, hu2⟩; exact hu hu2)
    · rw [if_pos (by simpa using h2)]
      exact iff_of_false (by simp) (by rintro ⟨-, heq, -⟩; exact h2 heq)

/-- On the straight-extension branch, a total-difficulty mismatch (or an
overflowing sum) aborts via the failed `assert_eq!` / `unwrap`. -/
theorem straightCheck_mismatch_abort (tIn tOut : HeaderInfoView) (header : BlockHeader)
    (mainIn mainOut uncleIn uncleOut : List Bytes)
    (hne : to_u64 tOut.total_difficulty ≠
      to_u64 (u64ToBytes (header.difficulty % 2 ^ 64)) + to_u64 tIn.total_difficulty) :
    straightCheck tIn tOut header mainIn mainOut uncleIn uncleOut = .error .Abort := by
  simp only [straightCheck]
  by_cases h1 : 2 ^ 64 ≤ to_u64 (u64ToBytes (header.difficulty % 2 ^ 64)) +
      to_u64 tIn.total_difficulty
  · rw [if_pos h1]
  · rw [if_neg h1, if_pos (by simpa using hne)]

/-- Characterization of an accepted uncle-append check. -/
theorem uncleAppendCheck_ok_iff (mainIn mainOut uncleIn uncleOut : List Bytes) :
    uncleAppendCheck mainIn mainOut uncleIn uncleOut = .ok () ↔
      (verify_original_chain_data uncleIn uncleOut UNCLE_HEADER_CACHE_LIMIT = .ok () ∧
        mainOut = mainIn) := by
  simp only [uncleAppendCheck]
  cases hvocd : verify_original_chain_data uncleIn uncleOut UNCLE_HEADER_CACHE_LIMIT with
  | error e =>
    exact iff_of_false (by simp)
      (by rintro ⟨hok, -⟩; simp at hok)
  | ok u =>
    cases u
    by_cases hm : mainOut = mainIn
    · rw [if_pos hm]
      exact iff_of_true rfl ⟨rfl, hm⟩
    · rw [if_neg hm]
      exact iff_of_false (by simp) (by rintro ⟨-, hm2⟩; exact hm hm2)

/-! ## Claim theorems -/

/-- C1: For every accepted transition classified as a straight extension
(the output main tail's raw bytes equal the witness header and the input
main tail's decoded hash equals the new header's parent_hash), there is
`k ∈ {0,1}` with `OUT_MAIN = IN_MAIN[k..] ++ [new tail entry]`;
`k = 1` exactly when `|IN_MAIN| = |OUT_MAIN| = 500`, `k = 0` exactly when
`|IN_MAIN| < |OUT_MAIN|` (forcing `|OUT_MAIN| = |IN_MAIN| + 1`), and
`|OUT_MAIN| ≤ 500`. -/
theorem C1_straight_extension_ring (ext : Ext) (input output : CellDataView)
    (hraw : Bytes) (header : BlockHeader) (ci co : ChainView)
    (tInRaw tOutRaw : Bytes) (tIn tOut : HeaderInfoView) (tInDec : BlockHeader)
    (hdec : ext.decodeHeader hraw = some header)
    (hci : ext.parseChain input.headers = some ci)
    (hco : ext.parseChain output.headers = some co)
    (htiL : ci.main.getLast? = some tInRaw)
    (htiP : ext.parseHeaderInfo tInRaw = some tIn)
    (htoL : co.main.getLast? = some tOutRaw)
    (htoP : ext.parseHeaderInfo tOutRaw = some tOut)
    (hcls : tOut.header = hraw)
    (htid : ext.decodeHeader tIn.header = some tInDec)
    (hstraight : tInDec.hash = header.parent_hash)
    (hres : verify_input_output_data ext input output hraw = .ok header) :
    MAIN_HEADER_CACHE_LIMIT = 500 ∧
    ∃ k e, (k = 0 ∨ k = 1) ∧ co.main = ci.main.drop k ++ [e] ∧
      (k = 1 ↔ (ci.main.length = 500 ∧ co.main.length = 500)) ∧
      (k = 0 ↔ ci.main.length < co.main.length) ∧
      (k = 0 → co.main.length = ci.main.length + 1) ∧
      co.main.length ≤ 500 := by
  rw [viodEq ext input output hraw hdec hci hco htiL htiP htoL htoP] at hres
  unfold branchDispatch at hres
  rw [hcls, if_pos rfl] at hres
  by_cases hh : tOut.hash = header.hash
  · rw [if_pos hh] at hres
    simp only [htid] at hres
    rw [if_pos hstraight] at hres
    obtain ⟨hok, -⟩ := liftOk_eq_ok hres
    obtain ⟨-, -, hlen, hvocd, -⟩ := (straightCheck_ok_iff tIn tOut header
      ci.main co.main ci.uncle co.uncle).mp hok
    refine ⟨rfl, ?_⟩
    rw [MAIN_HEADER_CACHE_LIMIT] at hvocd hlen
    obtain ⟨k, e, hk, hshape, hiff1, hiff2, hplus⟩ := vocd_shape hvocd
    exact ⟨k, e, hk, hshape, hiff1, hiff2, hplus, hlen⟩
  · rw [if_neg hh] at hres
    simp at hres

/-- C1 witness: a concrete accepted straight extension
(`IN_MAIN = [[100]]`, `OUT_MAIN = [[100],[101]]`), instantiating the ring
shape with `k = 0`. -/
theorem C1_straight_extension_ring_witness :
    MAIN_HEADER_CACHE_LIMIT = 500 ∧
    ∃ k e, (k = 0 ∨ k = 1) ∧
      ([[100], [101]] : List Bytes) = ([[100]] : List Bytes).drop k ++ [e] ∧
      (k = 1 ↔ (([[100]] : List Bytes).length = 500 ∧
        ([[100], [101]] : List Bytes).length = 500)) ∧
      (k = 0 ↔ ([[100]] : List Bytes).length < ([[100], [101]] : List Bytes).length) ∧
      (k = 0 → ([[100], [101]] : List Bytes).length = ([[100]] : List Bytes).length + 1) ∧
      ([[100], [101]] : List Bytes).length ≤ 500 :=
  C1_straight_extension_ring toyExt ⟨[0], [1]⟩ ⟨[0], [2]⟩ [10] ⟨[1], 2, 3, [2]⟩
    ⟨[[100]], []⟩ ⟨[[100], [101]], []⟩ [100] [101]
    ⟨[20], [1], td8 7⟩ ⟨[10], [2], td8 10⟩ ⟨[0], 1, 1, [1]⟩
    rfl rfl rfl rfl rfl rfl rfl rfl rfl rfl rfl

/-- C4: when the reorg ancestor search finds the fork point in `IN_MAIN`
at offset `mtn - number - 1` from the tail (the candidate entry's hash
equals the current walk hash), the loop accepts exactly when the input
entries at indices `1 .. |IN_MAIN|-2-offset` equal the output entries at
indices `0 .. |OUT_MAIN|-2`. -/
theorem C4_reorg_fork_point (ext : Ext) (mainIn uncleIn mainOut : List Bytes)
    (mtn number : Nat) (currentHash : Bytes) (hi : HeaderInfoView)
    (hpos : 0 < number) (hlt : number < mtn)
    (hofs : mtn - number - 1 < mainIn.length)
    (hparse : ext.parseHeaderInfo
      (mainIn.getD (mainIn.length - 1 - (mtn - number - 1)) []) = some hi)
    (hhit : hi.hash = currentHash)
    (hone : mainOut ≠ []) :
    (reorgLoop ext mainIn uncleIn mainOut mtn number currentHash = .ok () ↔
      (mainIn.drop 1).take (mainIn.length - 1 - (mtn - number - 1) - 1) =
        mainOut.dropLast) := by
  cases number with
  | zero => omega
  | succ m =>
    simp only [reorgLoop]
    rw [if_neg (by omega)]
    rw [if_neg (by omega), if_neg (by omega)]
    rw [hparse]
    simp only
    rw [if_pos hhit]
    rw [if_neg (by simpa [List.length_eq_zero] using hone)]
    by_cases heq : (mainIn.drop 1).take (mainIn.length - 1 - (mtn - (m + 1) - 1) - 1) =
        mainOut.dropLast
    · rw [if_pos heq]; exact iff_of_true rfl heq
    · rw [if_neg heq]; exact iff_of_false (by simp) heq

/-- C4 witness: a concrete fork point at offset 1 in a two-entry input
main, accepted with the surviving prefix empty. -/
theorem C4_reorg_fork_point_witness :
    reorgLoop toyExt [[100], [102]] [[110]] [[103]] 4 2 [1] = .ok () :=
  (C4_reorg_fork_point toyExt [[100], [102]] [[110]] [[103]] 4 2 [1]
    ⟨[20], [1], td8 7⟩ (by decide) (by decide) (by decide) rfl rfl
    (by decide)).mpr rfl

/-- C5: at walk state `number = 1` with `in_tail.number = 3` and
`|IN_MAIN| = 1`, the offset is `1 = |IN_MAIN|`; the guard at logic.rs
line 145 only rejects `offset > |IN_MAIN|`, so the access index
`|IN_MAIN| - 1 - offset` underflows and the script aborts instead of
returning `InvalidCellData` as the claim and spec state. -/
theorem C5_offset_eq_len_aborts :
    reorgLoop toyExt [[100]] [[110]] [[101]] 3 1 [5] = .error .Abort ∧
    Err.Abort ≠ Err.InvalidCellData :=
  ⟨rfl, by decide⟩


/-- C2 counterexample: a concrete straight extension whose output tail
total-difficulty (11) differs from input tail total-difficulty (7) plus
header difficulty (3); the validator aborts via the failed `assert_eq!`
at logic.rs line 119, which is not the `InvalidCellData` rejection the
claim states. -/
theorem C2_difficulty_mismatch_counterexample :
    verify_input_output_data toyExt ⟨[0], [1]⟩ ⟨[0], [7]⟩ [10] = .error .Abort ∧
    Err.Abort ≠ Err.InvalidCellData ∧
    to_u64 (td8 11) ≠ to_u64 (u64ToBytes (3 % 2 ^ 64)) + to_u64 (td8 7) :=
  ⟨rfl, by decide, by decide⟩

/-- C2 amended: on the straight-extension branch the validator aborts
(failed assertion / overflowing `checked_add().unwrap()`, not an
`InvalidCellData` return) whenever `out_tail.total_difficulty` differs
from `in_tail.total_difficulty + H.difficulty` (u64 values, big-endian
fields), and every accepted straight extension satisfies the equality. -/
theorem C2_straight_difficulty_law (ext : Ext) (input output : CellDataView)
    (hraw : Bytes) (header : BlockHeader) (ci co : ChainView)
    (tInRaw tOutRaw : Bytes) (tIn tOut : HeaderInfoView) (tInDec : BlockHeader)
    (hdec : ext.decodeHeader hraw = some header)
    (hci : ext.parseChain input.headers = some ci)
    (hco : ext.parseChain output.headers = some co)
    (htiL : ci.main.getLast? = some tInRaw)
    (htiP : ext.parseHeaderInfo tInRaw = some tIn)
    (htoL : co.main.getLast? = some tOutRaw)
    (htoP : ext.parseHeaderInfo tOutRaw = some tOut)
    (hcls : tOut.header = hraw)
    (htid : ext.decodeHeader tIn.header = some tInDec)
    (hstraight : tInDec.hash = header.parent_hash) :
    (to_u64 tOut.total_difficulty ≠
        to_u64 (u64ToBytes (header.difficulty % 2 ^ 64)) + to_u64 tIn.total_difficulty →
      verify_input_output_data ext input output hraw = .error .Abort) ∧
    (∀ h', verify_input_output_data ext input output hraw = .ok h' →
      to_u64 tOut.total_difficulty =
        to_u64 (u64ToBytes (header.difficulty % 2 ^ 64)) + to_u64 tIn.total_difficulty) := by
  rw [viodEq ext input output hraw hdec hci hco htiL htiP htoL htoP]
  unfold branchDispatch
  rw [hcls, if_pos rfl]
  by_cases hh : tOut.hash = header.hash
  · rw [if_pos hh]
    simp only [htid]
    rw [if_pos hstraight]
    constructor
    · intro hne
      exact liftOk_error (straightCheck_mismatch_abort tIn tOut header
        ci.main co.main ci.uncle co.uncle hne)
    · intro h' hres
      obtain ⟨hok, -⟩ := liftOk_eq_ok hres
      exact ((straightCheck_ok_iff tIn tOut header
        ci.main co.main ci.uncle co.uncle).mp hok).2.1
  · rw [if_neg hh]
    exact ⟨fun _ => rfl, fun h' hres => by simp at hres⟩

/-- C2 witness: the accepted concrete straight extension satisfies the
total-difficulty equality `10 = 3 + 7`. -/
theorem C2_straight_difficulty_law_witness :
    to_u64 (td8 10) = to_u64 (u64ToBytes (3 % 2 ^ 64)) + to_u64 (td8 7) :=
  (C2_straight_difficulty_law toyExt ⟨[0], [1]⟩ ⟨[0], [2]⟩ [10] ⟨[1], 2, 3, [2]⟩
    ⟨[[100]], []⟩ ⟨[[100], [101]], []⟩ [100] [101]
    ⟨[20], [1], td8 7⟩ ⟨[10], [2], td8 10⟩ ⟨[0], 1, 1, [1]⟩
    rfl rfl rfl rfl rfl rfl rfl rfl rfl rfl).2 ⟨[1], 2, 3, [2]⟩ rfl

/-- C3: on the reorg branch (output main tail's raw bytes equal the
witness header, its hash field matches, but the decoded input main tail's
hash differs from `H.parent_hash`), a drop in total difficulty is
rejected with `InvalidCellData`, and every accepted reorg satisfies
`out_tail.total_difficulty ≥ in_tail.total_difficulty`. -/
theorem C3_reorg_difficulty_monotone (ext : Ext) (input output : CellDataView)
    (hraw : Bytes) (header : BlockHeader) (ci co : ChainView)
    (tInRaw tOutRaw : Bytes) (tIn tOut : HeaderInfoView) (tInDec : BlockHeader)
    (hdec : ext.decodeHeader hraw = some header)
    (hci : ext.parseChain input.headers = some ci)
    (hco : ext.parseChain output.headers = some co)
    (htiL : ci.main.getLast? = some tInRaw)
    (htiP : ext.parseHeaderInfo tInRaw = some tIn)
    (htoL : co.main.getLast? = some tOutRaw)
    (htoP : ext.parseHeaderInfo tOutRaw = some tOut)
    (hcls : tOut.header = hraw)
    (hh : tOut.hash = header.hash)
    (htid : ext.decodeHeader tIn.header = some tInDec)
    (hreorg : tInDec.hash ≠ header.parent_hash) :
    (to_u64 tOut.total_difficulty < to_u64 tIn.total_difficulty →
      verify_input_output_data ext input output hraw = .error .InvalidCellData) ∧
    (∀ h', verify_input_output_data ext input output hraw = .ok h' →
      to_u64 tIn.total_difficulty ≤ to_u64 tOut.total_difficulty) := by
  rw [viodEq ext input output hraw hdec hci hco htiL htiP htoL htoP]
  unfold branchDispatch
  rw [hcls, if_pos rfl, if_pos hh]
  simp only [htid]
  rw [if_neg hreorg]
  constructor
  · intro hlt
    apply liftOk_error
    simp only [reorgCheck]
    rw [if_neg (by omega)]
  · intro h' hres
    by_cases hle : to_u64 tIn.total_difficulty ≤ to_u64 tOut.total_difficulty
    · exact hle
    · exfalso
      rw [liftOk_error (r := reorgCheck ext tIn tOut header tInDec ci.main ci.uncle co.main)
        (by simp only [reorgCheck]; rw [if_neg hle])] at hres
      simp at hres

/-- C3 witness: a concrete reorg candidate whose output total difficulty
(5) drops below the input's (6) is rejected with `InvalidCellData`. -/
theorem C3_reorg_difficulty_monotone_witness :
    verify_input_output_data toyExt ⟨[0], [3]⟩ ⟨[0], [4]⟩ [11] = .error .InvalidCellData :=
  (C3_reorg_difficulty_monotone toyExt ⟨[0], [3]⟩ ⟨[0], [4]⟩ [11] ⟨[3], 5, 2, [4]⟩
    ⟨[[102]], [[110]]⟩ ⟨[[103]], [[110]]⟩ [102] [103]
    ⟨[21], [9], td8 6⟩ ⟨[11], [4], td8 5⟩ ⟨[8], 4, 1, [9]⟩
    rfl rfl rfl rfl rfl rfl rfl rfl rfl rfl (by decide)).1 (by decide)


/-- If no entry at an index in `[1, idx]` of the uncle pool is a hit, the
scan of `traverse_uncle_chain` ends at index 0 with `InvalidCellData`
(a parse failure along the way yields the same error). -/
theorem traverseUncleAux_miss (ext : Ext) (uncle : List Bytes) (h : Bytes) :
    ∀ idx, (∀ j, 1 ≤ j → j ≤ idx → ¬ hitAt ext uncle h j) →
      traverseUncleAux ext uncle h idx = .error .InvalidCellData := by
  intro idx
  induction idx with
  | zero => intro _; rfl
  | succ i ih =>
    intro hmiss
    cases hp : ext.parseHeaderInfo (uncle.getD (i + 1) []) with
    | none => simp only [traverseUncleAux, hp]
    | some hi =>
      have hne : ¬ hi.hash = h := fun he => hmiss (i + 1) (by omega) le_rfl ⟨hi, hp, he⟩
      simp only [traverseUncleAux, hp, if_neg hne]
      exact ih (fun j a b => hmiss j a (by omega))

/-- If index `j ≥ 1` is a hit and every index strictly above it (up to
`idx`) parses but mismatches, the scan returns the decoded parent hash of
the entry at `j`. -/
theorem traverseUncleAux_hit (ext : Ext) (uncle : List Bytes) (h : Bytes)
    (j : Nat) (hi : HeaderInfoView) (hdr : BlockHeader) (h1 : 1 ≤ j)
    (hp : ext.parseHeaderInfo (uncle.getD j []) = some hi) (hh : hi.hash = h)
    (hd : ext.decodeHeader hi.header = some hdr) :
    ∀ idx, j ≤ idx →
      (∀ jp, j < jp → jp ≤ idx →
        ∃ hip, ext.parseHeaderInfo (uncle.getD jp []) = some hip ∧ ¬ hip.hash = h) →
      traverseUncleAux ext uncle h idx = .ok hdr.parent_hash := by
  intro idx
  induction idx with
  | zero => intro hle _; omega
  | succ i ih =>
    intro hle habove
    by_cases hji : j = i + 1
    · subst hji
      simp only [traverseUncleAux, hp]
      rw [if_pos hh]
      simp only [hd]
    · obtain ⟨hip, hp2, hne⟩ := habove (i + 1) (by omega) le_rfl
      simp only [traverseUncleAux, hp2, if_neg hne]
      exact ih (by omega) (fun jp a b => habove jp a (by omega))

/-- C6 counterexample: a two-entry uncle pool whose only hit sits at
index 0 is rejected with `InvalidCellData` even though a matching entry
exists — the scan's `if index == 0 {{ return Err }}` runs before the entry
at index 0 is ever read. -/
theorem C6_index_zero_counterexample :
    traverse_uncle_chain toyExt [[110], [111]] [7] 5 = .error .InvalidCellData ∧
    hitAt toyExt [[110], [111]] [7] 0 :=
  ⟨rfl, ⟨⟨[22], [7], td8 1⟩, rfl, rfl⟩⟩

/-- C6 amended: `traverse_uncle_chain` scans `IN_UNCLE` from the tail
backward but never examines index 0.  For a non-empty pool whose entries
at indices `≥ 1` all parse: if no entry at an index `≥ 1` matches
`current_hash` the result is `InvalidCellData` (even when index 0
matches); if the greatest matching index is `j ≥ 1` and its header
decodes, the walk hash becomes that entry's decoded `parent_hash` and the
height decreases by exactly 1. -/
theorem C6_traverse_uncle_scan (ext : Ext) (uncle : List Bytes) (h : Bytes)
    (number : Nat) (hne : uncle ≠ [])
    (hparseAll : ∀ j, 1 ≤ j → j < uncle.length →
      ∃ hi, ext.parseHeaderInfo (uncle.getD j []) = some hi) :
    ((¬ ∃ j, 1 ≤ j ∧ j < uncle.length ∧ hitAt ext uncle h j) →
      traverse_uncle_chain ext uncle h number = .error .InvalidCellData) ∧
    (∀ j hi hdr, 1 ≤ j → j < uncle.length →
      (∀ jp, j < jp → jp < uncle.length → ¬ hitAt ext uncle h jp) →
      ext.parseHeaderInfo (uncle.getD j []) = some hi → hi.hash = h →
      ext.decodeHeader hi.header = some hdr →
      traverse_uncle_chain ext uncle h number = .ok (hdr.parent_hash, number - 1)) := by
  have hlen : ¬ uncle.length = 0 := by simpa [List.length_eq_zero] using hne
  constructor
  · intro hnone
    have hm := traverseUncleAux_miss ext uncle h (uncle.length - 1)
      (fun j a b => fun hhit => hnone ⟨j, a, by omega, hhit⟩)
    unfold traverse_uncle_chain
    rw [if_neg hlen]
    simp only [hm]
  · intro j hi hdr h1 hj habove hp hh hd
    have hm := traverseUncleAux_hit ext uncle h j hi hdr h1 hp hh hd
      (uncle.length - 1) (by omega)
      (fun jp a b => by
        obtain ⟨hip, hpp⟩ := hparseAll jp (by omega) (by omega)
        exact ⟨hip, hpp, fun he => habove jp a (by omega) ⟨hip, hpp, he⟩⟩)
    unfold traverse_uncle_chain
    rw [if_neg hlen]
    simp only [hm]

/-- C6 witness: with the hit at index 1 the scan succeeds and returns the
decoded parent hash and the decremented height. -/
theorem C6_traverse_uncle_scan_witness :
    traverse_uncle_chain toyExt [[110], [111]] [8] 5 = .ok ([6], 4) :=
  (C6_traverse_uncle_scan toyExt [[110], [111]] [8] 5 (by decide)
    (fun j h1 h2 => by
      have h2' : j < 2 := by simpa using h2
      interval_cases j
      exact ⟨⟨[23], [8], td8 1⟩, rfl⟩)).2
    1 ⟨[23], [8], td8 1⟩ ⟨[6], 3, 1, [8]⟩ (by omega) (by decide)
    (fun jp a b => by exfalso; simp at b; omega) rfl rfl rfl

/-- C7 counterexample: an accepted uncle-append transition whose output
uncle tail `[122]` has hash field `[99]` although its raw header `[26]`
decodes to a header with hash `[55]` — the validator never checks the
hash fields of non-tail (or uncle) entries. -/
theorem C7_hash_unchecked_counterexample :
    verify_input_output_data toyExt ⟨[0], [5]⟩ ⟨[0], [6]⟩ [12] = .ok ⟨[1], 2, 3, [5]⟩ ∧
    toyExt.parseChain [6] = some ⟨[[120]], [[121], [122]]⟩ ∧
    toyExt.parseHeaderInfo [122] = some ⟨[26], [99], td8 9⟩ ∧
    toyExt.decodeHeader [26] = some ⟨[2], 2, 1, [55]⟩ ∧
    ([99] : Bytes) ≠ [55] :=
  ⟨rfl, rfl, rfl, rfl, by decide⟩

/-- C7 amended: the only hash-field check the validator performs is on
the output main tail, and only on the canonical-append classification:
every accepted transition with `out_tail.raw = header_raw` satisfies
`out_tail.hash = H.hash` (the decoded hash of the witness header). -/
theorem C7_output_tail_hash_checked (ext : Ext) (input output : CellDataView)
    (hraw : Bytes) (header : BlockHeader) (ci co : ChainView)
    (tInRaw tOutRaw : Bytes) (tIn tOut : HeaderInfoView)
    (hdec : ext.decodeHeader hraw = some header)
    (hci : ext.parseChain input.headers = some ci)
    (hco : ext.parseChain output.headers = some co)
    (htiL : ci.main.getLast? = some tInRaw)
    (htiP : ext.parseHeaderInfo tInRaw = some tIn)
    (htoL : co.main.getLast? = some tOutRaw)
    (htoP : ext.parseHeaderInfo tOutRaw = some tOut)
    (hcls : tOut.header = hraw)
    (h' : BlockHeader)
    (hres : verify_input_output_data ext input output hraw = .ok h') :
    tOut.hash = header.hash := by
  rw [viodEq ext input output hraw hdec hci hco htiL htiP htoL htoP] at hres
  unfold branchDispatch at hres
  rw [hcls, if_pos rfl] at hres
  by_cases hh : tOut.hash = header.hash
  · exact hh
  · rw [if_neg hh] at hres
    simp at hres

/-- C7 witness: the accepted concrete straight extension has output tail
hash field equal to the decoded witness header's hash. -/
theorem C7_output_tail_hash_checked_witness : ([2] : Bytes) = [2] :=
  C7_output_tail_hash_checked toyExt ⟨[0], [1]⟩ ⟨[0], [2]⟩ [10] ⟨[1], 2, 3, [2]⟩
    ⟨[[100]], []⟩ ⟨[[100], [101]], []⟩ [100] [101]
    ⟨[20], [1], td8 7⟩ ⟨[10], [2], td8 10⟩
    rfl rfl rfl rfl rfl rfl rfl rfl ⟨[1], 2, 3, [2]⟩ rfl

/-- C8 counterexample: a concrete transition in which both uncle
sequences are empty is accepted — the validator has no emptiness
precondition and does not reject transitions with empty sequences. -/
theorem C8_no_emptiness_check_counterexample :
    verify_input_output_data toyExt ⟨[0], [1]⟩ ⟨[0], [2]⟩ [10] = .ok ⟨[1], 2, 3, [2]⟩ ∧
    toyExt.parseChain [1] = some ⟨[[100]], []⟩ ∧
    toyExt.parseChain [2] = some ⟨[[100], [101]], []⟩ :=
  ⟨rfl, rfl, rfl⟩

/-- C8 amended: there is no explicit emptiness precondition; when
`input.main` is empty the validator aborts through the underflowing
`len() - 1` tail access (an out-of-range read), instead of returning one
of the contract's error values. -/
theorem C8_empty_main_aborts (ext : Ext) (input output : CellDataView)
    (hraw : Bytes) (header : BlockHeader) (ci co : ChainView)
    (hdec : ext.decodeHeader hraw = some header)
    (hci : ext.parseChain input.headers = some ci)
    (hco : ext.parseChain output.headers = some co)
    (hmain : ci.main = []) :
    verify_input_output_data ext input output hraw = .error .Abort := by
  simp [verify_input_output_data, hdec, hci, hco, hmain]

/-- C8 witness: a concrete transition with an empty input main chain
aborts. -/
theorem C8_empty_main_aborts_witness :
    verify_input_output_data toyExt ⟨[0], [8]⟩ ⟨[0], [2]⟩ [10] = .error .Abort :=
  C8_empty_main_aborts toyExt ⟨[0], [8]⟩ ⟨[0], [2]⟩ [10] ⟨[1], 2, 3, [2]⟩
    ⟨[], []⟩ ⟨[[100], [101]], []⟩ rfl rfl rfl rfl

/-- C9 counterexample: with a schema-valid but empty roots sequence and
`H.number = 0`, the epoch index 0 is out of range and `parse_dep_data`
aborts through the unchecked `get_unchecked` read — it does not return
`DagsMerkleRootsDataInvalid` as the claim states. -/
theorem C9_epoch_out_of_range_counterexample :
    parse_dep_data toyExt loadDepEmptyRoots ⟨[0], [10], []⟩ 0 = .error .Abort ∧
    Err.Abort ≠ Err.DagsMerkleRootsDataInvalid ∧
    toyExt.parseDagsRoots [40] = some [] :=
  ⟨rfl, by decide, rfl⟩

/-- C9 amended: the DAG root handed on is exactly entry
`H.number / 30000` of the roots sequence of the dep cell selected by
`cell_dep_index_list[0]` whenever that index is in range (and the entry
is 16 bytes); an out-of-range epoch index makes the validator abort via
an unchecked read, not fail with `DagsMerkleRootsDataInvalid`
(`DagsMerkleRootsDataInvalid` only arises from schema failure). -/
theorem C9_dag_root_lookup (ext : Ext) (load : Nat → Option Bytes)
    (w : WitnessView) (number : Nat) (dep : Bytes) (roots : List Bytes)
    (hlen : w.cell_dep_index_list.length = 1)
    (hload : load (w.cell_dep_index_list.getD 0 0) = some dep)
    (hroots : ext.parseDagsRoots dep = some roots) :
    (number / 30000 < roots.length →
      (roots.getD (number / 30000) []).length = 16 →
      parse_dep_data ext load w number = .ok (roots.getD (number / 30000) [])) ∧
    (roots.length ≤ number / 30000 →
      parse_dep_data ext load w number = .error .Abort) := by
  unfold parse_dep_data
  rw [if_neg (by simp [hlen])]
  simp only [hload, hroots]
  constructor
  · intro hin h16
    rw [if_neg (by omega), if_pos h16]
  · intro hout
    rw [if_pos hout]

/-- C9 witness: with one 16-byte root and `H.number = 5`, epoch 0 is in
range and the root is returned. -/
theorem C9_dag_root_lookup_witness :
    parse_dep_data toyExt loadDepOneRoot ⟨[0], [10], []⟩ 5 = .ok (List.replicate 16 0) :=
  (C9_dag_root_lookup toyExt loadDepOneRoot ⟨[0], [10], []⟩ 5 [41]
    [List.replicate 16 0] rfl rfl rfl).1 (by decide) (by decide)

/-- C10 counterexample: with zero cell-data blobs in the input group,
`get_data` returns `Ok(None)` and `verify` panics on the
`expect("should not happen")` — it aborts instead of returning
`TxInvalid` as the claim states. -/
theorem C10_zero_blobs_counterexample :
    verify toyExt hostNoInput = .error .Abort ∧ Err.Abort ≠ Err.TxInvalid :=
  ⟨rfl, by decide⟩

/-- C10 amended: two or more blobs in the input group (or, once the
input blob loads, in the output group) yield `TxInvalid`; zero blobs in
either group make `verify` abort via the `expect` panic instead. -/
theorem C10_group_count (ext : Ext) (host : Host) :
    (host.inputData = [] → verify ext host = .error .Abort) ∧
    (2 ≤ host.inputData.length → verify ext host = .error .TxInvalid) ∧
    (∀ d v, host.inputData = [d] → ext.parseCellData d = some v →
      ((2 ≤ host.outputData.length → verify ext host = .error .TxInvalid) ∧
        (host.outputData = [] → verify ext host = .error .Abort))) := by
  refine ⟨?_, ?_, ?_⟩
  · intro hemp
    simp [verify, get_data, hemp]
  · intro hlen
    cases hin : host.inputData with
    | nil => rw [hin] at hlen; simp at hlen
    | cons d t =>
      cases t with
      | nil => rw [hin] at hlen; simp at hlen
      | cons d2 t2 => simp [verify, get_data, hin]
  · intro d v hin hv
    constructor
    · intro hlen
      cases hout : host.outputData with
      | nil => rw [hout] at hlen; simp at hlen
      | cons o t =>
        cases t with
        | nil => rw [hout] at hlen; simp at hlen
        | cons o2 t2 => simp [verify, get_data, hin, hv, hout]
    · intro hout
      simp [verify, get_data, hin, hv, hout]

/-- C10 witness: one well-formed input blob and two output blobs yield
`TxInvalid`. -/
theorem C10_group_count_witness :
    verify toyExt hostTwoOutputs = .error .TxInvalid :=
  ((C10_group_count toyExt hostTwoOutputs).2.2 [30] ⟨[0], [1]⟩ rfl rfl).1 (by decide)

end EthClient
